import Mathlib

/-!
Verification development for the `terminalclustering` crate: a KataGo
self-play driver (engine process client, move-selection policy, game runner,
bounded-concurrency scheduler, config parsing, SGF move encoding).

Shallow embedding conventions:
* Rust `f32` fields (`utility`, `scoreLead`) are modelled as exact rationals
  (`ℚ`); the sampling weights, which go through `exp`, are modelled in `ℝ`.
* The weighted random sampler (`WeightedIndex::sample`) is abstracted by a
  function `rng : Nat → Nat` giving the index drawn at each attempt, reduced
  modulo the list length.  Since every weight `exp (u * 0.5)` is strictly
  positive, every index has positive probability, so the set of possible
  draws is exactly the set of all indices; the abstraction preserves the
  support of the distribution, and the weight values themselves are modelled
  separately by `pickWeights`.
* Fallible Rust paths (`?`, `unwrap`, panics) are modelled with `Option` /
  `Except`.
-/

/-- One entry of `moveInfos` in a KataGo analysis response
(struct `AnalysisResponseMoveInfo` in `katago.rs`). -/
structure AnalysisResponseMoveInfo where
  mov : String
  utility : ℚ
  score_lead : ℚ
deriving DecidableEq

/-- The `rootInfo` part of a KataGo analysis response. -/
structure AnalysisResponseRootInfo where
  current_player : String
deriving DecidableEq

/-- A KataGo analysis response (struct `AnalysisResponse` in `katago.rs`). -/
structure AnalysisResponse where
  id : String
  root_info : AnalysisResponseRootInfo
  move_infos : List AnalysisResponseMoveInfo
deriving DecidableEq

/-- Rust `f32::round`: round half away from zero. -/
def rustRound (q : ℚ) : ℤ :=
  if 0 ≤ q then ⌊q + 1/2⌋ else -⌊-q + 1/2⌋

/-- The comparison key of `max_by_key` in `pick_move`:
`(m.utility * 1000.0).round() as i64`. -/
def utilityKey (m : AnalysisResponseMoveInfo) : ℤ :=
  rustRound (m.utility * 1000)

/-- Fold implementing Rust `Iterator::max_by_key` (which returns the LAST
maximal element), with accumulator `b`. -/
def bestMoveAux (b : AnalysisResponseMoveInfo) :
    List AnalysisResponseMoveInfo → AnalysisResponseMoveInfo
  | [] => b
  | m :: ms => bestMoveAux (if utilityKey b ≤ utilityKey m then m else b) ms

/-- The `best_move` computation in `pick_move`:
`moves.iter().max_by_key(|&m| (m.utility * 1000.0).round() as i64)`,
`none` exactly when the list is empty (the `no moves returned` error). -/
def bestMove : List AnalysisResponseMoveInfo → Option AnalysisResponseMoveInfo
  | [] => none
  | m :: ms => some (bestMoveAux m ms)

/-- The acceptance test inside the sampling loop of `pick_move`:
`(score - choice.score_lead) < 0.5 && choice.mov != "pass"`.
Note the score test is ONE-SIDED: a sampled move whose score lead exceeds
the best move's passes it no matter by how much. -/
def acceptMove (best choice : AnalysisResponseMoveInfo) : Bool :=
  decide (best.score_lead - choice.score_lead < 1/2) && decide (choice.mov ≠ "pass")

/-- The `for _ in 0..10` rejection-sampling loop of `pick_move`: `ts` is the
list of remaining attempt indices, each attempt draws index
`rng t % moves.length`, and the fallback after all attempts is `best`. -/
def pickLoop (rng : Nat → Nat) (moves : List AnalysisResponseMoveInfo)
    (best : AnalysisResponseMoveInfo) : List Nat → AnalysisResponseMoveInfo
  | [] => best
  | t :: ts =>
    match moves.get? (rng t % moves.length) with
    | none => pickLoop rng moves best ts
    | some choice =>
      if acceptMove best choice then choice else pickLoop rng moves best ts

/-- The move-selection policy `pick_move` of `katago.rs`, with the random
sampler abstracted by `rng` (see the file header). -/
def pick_move (rng : Nat → Nat) (moves : List AnalysisResponseMoveInfo) :
    Option AnalysisResponseMoveInfo :=
  match bestMove moves with
  | none => none
  | some best =>
    if best.mov = "pass" then some best
    else some (pickLoop rng moves best (List.range 10))

/-- The weight vector handed to `WeightedIndex::new` in `pick_move`:
`moves.iter().map(|mv| (mv.utility * 0.5).exp())` — over ALL moves. -/
noncomputable def pickWeights (moves : List AnalysisResponseMoveInfo) : List ℝ :=
  moves.map (fun mv => Real.exp ((mv.utility : ℝ) * (1/2)))

theorem floor_intCast_add_half (c : ℤ) : ⌊(c : ℚ) + 1/2⌋ = c := by
  refine Int.floor_eq_iff.mpr ⟨by linarith, by linarith⟩

theorem rustRound_intCast (c : ℤ) : rustRound (c : ℚ) = c := by
  unfold rustRound
  by_cases h : (0 : ℚ) ≤ (c : ℚ)
  · rw [if_pos h, floor_intCast_add_half]
  · rw [if_neg h]
    have h2 : -((c : ℚ)) = ((-c : ℤ) : ℚ) := by push_cast; ring
    rw [h2, floor_intCast_add_half]
    ring

theorem bestMoveAux_mem (b : AnalysisResponseMoveInfo)
    (ms : List AnalysisResponseMoveInfo) :
    bestMoveAux b ms = b ∨ bestMoveAux b ms ∈ ms := by
  induction ms generalizing b with
  | nil => left; rfl
  | cons m ms ih =>
    simp only [bestMoveAux]
    rcases ih (if utilityKey b ≤ utilityKey m then m else b) with h | h
    · rw [h]
      split
      · right; exact List.mem_cons_self m ms
      · left; rfl
    · right; exact List.mem_cons_of_mem m h

theorem bestMove_mem {moves : List AnalysisResponseMoveInfo}
    {b : AnalysisResponseMoveInfo} (h : bestMove moves = some b) : b ∈ moves := by
  cases moves with
  | nil => simp [bestMove] at h
  | cons m ms =>
    simp only [bestMove, Option.some.injEq] at h
    rcases bestMoveAux_mem m ms with h2 | h2
    · rw [← h, h2]; exact List.mem_cons_self m ms
    · exact List.mem_cons_of_mem m (h ▸ h2)

theorem pickLoop_spec (rng : Nat → Nat) (moves : List AnalysisResponseMoveInfo)
    (best : AnalysisResponseMoveInfo) (ts : List Nat) :
    pickLoop rng moves best ts = best ∨
      (pickLoop rng moves best ts ∈ moves ∧
        acceptMove best (pickLoop rng moves best ts) = true) := by
  induction ts with
  | nil => left; rfl
  | cons t ts ih =>
    cases hg : moves.get? (rng t % moves.length) with
    | none =>
      simp only [pickLoop, hg]
      exact ih
    | some c =>
      simp only [pickLoop, hg]
      by_cases ha : acceptMove best c = true
      · rw [if_pos ha]
        right
        exact ⟨List.get?_mem hg, ha⟩
      · rw [if_neg ha]
        exact ih

theorem pickLoop_mem {rng : Nat → Nat} {moves : List AnalysisResponseMoveInfo}
    {best : AnalysisResponseMoveInfo} (ts : List Nat) (hb : best ∈ moves) :
    pickLoop rng moves best ts ∈ moves := by
  rcases pickLoop_spec rng moves best ts with h | h
  · rw [h]; exact hb
  · exact h.1

theorem acceptMove_not_pass {best c : AnalysisResponseMoveInfo}
    (h : acceptMove best c = true) : c.mov ≠ "pass" := by
  simp only [acceptMove, Bool.and_eq_true, decide_eq_true_eq] at h
  exact h.2

theorem pickLoop_not_pass {rng : Nat → Nat} {moves : List AnalysisResponseMoveInfo}
    {best : AnalysisResponseMoveInfo} (ts : List Nat) (hb : best.mov ≠ "pass") :
    (pickLoop rng moves best ts).mov ≠ "pass" := by
  rcases pickLoop_spec rng moves best ts with h | h
  · rw [h]; exact hb
  · exact acceptMove_not_pass h.2

theorem pickLoop_head_accept {rng : Nat → Nat}
    {moves : List AnalysisResponseMoveInfo} {best c : AnalysisResponseMoveInfo}
    {t : Nat} {ts : List Nat}
    (hg : moves.get? (rng t % moves.length) = some c)
    (ha : acceptMove best c = true) :
    pickLoop rng moves best (t :: ts) = c := by
  simp only [pickLoop, hg]
  rw [if_pos ha]

/-- Claim C5: for every evaluation list whose maximum-utility move (in the
sense of the code's rounded-utility `max_by_key`) is "pass", `pick_move`
returns that move for every random-generator state, with no sampling. -/
theorem C5_pass_is_unconditional (moves : List AnalysisResponseMoveInfo)
    (best : AnalysisResponseMoveInfo) (h : bestMove moves = some best)
    (hp : best.mov = "pass") (rng : Nat → Nat) :
    pick_move rng moves = some best := by
  simp [pick_move, h, hp]

/-- Witness for C5 at the concrete one-element list `[("pass",0,0)]`. -/
theorem C5_pass_is_unconditional_witness :
    pick_move (fun _ => 0) [⟨"pass", 0, 0⟩] = some ⟨"pass", 0, 0⟩ :=
  C5_pass_is_unconditional [⟨"pass", 0, 0⟩] ⟨"pass", 0, 0⟩ rfl rfl (fun _ => 0)

/-- Claim C10: `pick_move` returns a "pass" move only when "pass" is the
maximum-utility move: sampled "pass" draws are always rejected and the
fallback is the non-"pass" best move. -/
theorem C10_pass_only_if_best (rng : Nat → Nat)
    (moves : List AnalysisResponseMoveInfo) (m : AnalysisResponseMoveInfo)
    (h : pick_move rng moves = some m) (hp : m.mov = "pass") :
    bestMove moves = some m := by
  rw [pick_move] at h
  split at h
  · exact Option.noConfusion h
  · rename_i best hb
    by_cases hbp : best.mov = "pass"
    · rw [if_pos hbp] at h
      rw [← Option.some.inj h]
      exact hb
    · rw [if_neg hbp] at h
      exact absurd hp (Option.some.inj h ▸ pickLoop_not_pass (List.range 10) hbp)

/-- A move with utility 0 (used in concrete instances). -/
def mvLow : AnalysisResponseMoveInfo := ⟨"D4", 0, 0⟩

/-- A "pass" move with utility 1 (used in concrete instances). -/
def mvPassHigh : AnalysisResponseMoveInfo := ⟨"pass", 1, 0⟩

theorem utilityKey_mvLow : utilityKey mvLow = 0 := by
  have h : mvLow.utility * 1000 = ((0 : ℤ) : ℚ) := by norm_num [mvLow]
  rw [utilityKey, h, rustRound_intCast]

theorem utilityKey_mvPassHigh : utilityKey mvPassHigh = 1000 := by
  have h : mvPassHigh.utility * 1000 = ((1000 : ℤ) : ℚ) := by norm_num [mvPassHigh]
  rw [utilityKey, h, rustRound_intCast]

theorem bestMove_lowPass : bestMove [mvLow, mvPassHigh] = some mvPassHigh := by
  simp only [bestMove, bestMoveAux, utilityKey_mvLow, utilityKey_mvPassHigh]
  norm_num

theorem pick_move_lowPass :
    pick_move (fun _ => 0) [mvLow, mvPassHigh] = some mvPassHigh := by
  rw [pick_move, bestMove_lowPass]
  rfl

/-- Witness for C10 at a concrete list where "pass" wins on utility. -/
theorem C10_pass_only_if_best_witness :
    bestMove [mvLow, mvPassHigh] = some mvPassHigh :=
  C10_pass_only_if_best (fun _ => 0) [mvLow, mvPassHigh] mvPassHigh
    pick_move_lowPass rfl

/-- Best-utility move of the C2 counterexample (score lead 0). -/
def mvA : AnalysisResponseMoveInfo := ⟨"D4", 1, 0⟩

/-- Companion move to `mvA`: lower utility but score lead larger by 10. -/
def mvB : AnalysisResponseMoveInfo := ⟨"Q16", 0, 10⟩

theorem utilityKey_mvA : utilityKey mvA = 1000 := by
  have h : mvA.utility * 1000 = ((1000 : ℤ) : ℚ) := by norm_num [mvA]
  rw [utilityKey, h, rustRound_intCast]

theorem utilityKey_mvB : utilityKey mvB = 0 := by
  have h : mvB.utility * 1000 = ((0 : ℤ) : ℚ) := by norm_num [mvB]
  rw [utilityKey, h, rustRound_intCast]

theorem bestMove_A_B : bestMove [mvA, mvB] = some mvA := by
  simp only [bestMove, bestMoveAux, utilityKey_mvA, utilityKey_mvB]
  norm_num

theorem acceptMove_A_B : acceptMove mvA mvB = true := by
  simp only [acceptMove, mvA, mvB, Bool.and_eq_true, decide_eq_true_eq]
  constructor
  · norm_num
  · decide

theorem pick_move_A_B : pick_move (fun _ => 1) [mvA, mvB] = some mvB := by
  rw [pick_move, bestMove_A_B]
  have h10 : List.range 10 = 0 :: [1, 2, 3, 4, 5, 6, 7, 8, 9] := by decide
  show some (pickLoop (fun _ => 1) [mvA, mvB] mvA (List.range 10)) = some mvB
  rw [h10]
  exact congrArg some (pickLoop_head_accept rfl acceptMove_A_B)

/-- Claim C2, counterexample: the claim says the returned move is either the
best move or within 0.5 points of its score lead, but the sampled move `mvB`
is returned although its score lead differs from the best move's by 10
points (the code's cutoff test is one-sided). -/
theorem C2_counterexample :
    bestMove [mvA, mvB] = some mvA ∧
      pick_move (fun _ => 1) [mvA, mvB] = some mvB ∧
      ¬(|mvB.score_lead - mvA.score_lead| ≤ 1/2) ∧ mvB ≠ mvA := by
  refine ⟨bestMove_A_B, pick_move_A_B, ?_, by decide⟩
  have h : mvB.score_lead - mvA.score_lead = 10 := by norm_num [mvA, mvB]
  rw [h, abs_of_nonneg (by norm_num : (0 : ℚ) ≤ 10)]
  norm_num

/-- Claim C2 as amended: when the best move is not "pass", `pick_move`
returns a member of the input list that is either the best move itself or a
non-"pass" move whose score lead exceeds the best move's score lead minus
0.5 (one-sided cutoff); if every one of the 10 weighted draws is rejected,
the best move is returned. -/
theorem C2_amended_result_shape (rng : Nat → Nat)
    (moves : List AnalysisResponseMoveInfo) (best : AnalysisResponseMoveInfo)
    (h : bestMove moves = some best) (hb : best.mov ≠ "pass") :
    ∃ m, pick_move rng moves = some m ∧ m ∈ moves ∧
      (m = best ∨ (m.mov ≠ "pass" ∧ best.score_lead - m.score_lead < 1/2)) := by
  refine ⟨pickLoop rng moves best (List.range 10), by simp [pick_move, h, hb], ?_, ?_⟩
  · exact pickLoop_mem (List.range 10) (bestMove_mem h)
  · rcases pickLoop_spec rng moves best (List.range 10) with h2 | h2
    · left; exact h2
    · right
      have h3 := h2.2
      simp only [acceptMove, Bool.and_eq_true, decide_eq_true_eq] at h3
      exact ⟨h3.2, h3.1⟩

/-- Witness for the amended C2 at the concrete two-move list. -/
theorem C2_amended_result_shape_witness :
    ∃ m, pick_move (fun _ => 1) [mvA, mvB] = some m ∧ m ∈ [mvA, mvB] ∧
      (m = mvA ∨ (m.mov ≠ "pass" ∧ mvA.score_lead - m.score_lead < 1/2)) :=
  C2_amended_result_shape (fun _ => 1) [mvA, mvB] mvA bestMove_A_B (by decide)

/-- Candidate move used in the C1 counterexample: utility 2, score lead 0. -/
def mvC : AnalysisResponseMoveInfo := ⟨"D4", 2, 0⟩

/-- Weight formula stated by the spec (modelled from the spec words, for
comparison with the code's `pickWeights`): each candidate is claimed to get
`exp(candidate.utility − best.utility)`. -/
noncomputable def specWeight (best m : AnalysisResponseMoveInfo) : ℝ :=
  Real.exp ((m.utility : ℝ) - (best.utility : ℝ))

/-- Claim C1, counterexample: on the one-element list `[mvC]`, `mvC` is the
best move and its own (only) candidate, yet the weight the code feeds to the
sampler is `exp(mvC.utility * 0.5) = exp 1`, not the claimed
`exp(mvC.utility − mvC.utility) = exp 0`. -/
theorem C1_counterexample :
    bestMove [mvC] = some mvC ∧ mvC.mov ≠ "pass" ∧
      pickWeights [mvC] ≠ [specWeight mvC mvC] := by
  refine ⟨rfl, by decide, ?_⟩
  intro hcontra
  have h1 : Real.exp ((mvC.utility : ℝ) * (1/2)) =
      Real.exp ((mvC.utility : ℝ) - (mvC.utility : ℝ)) := by
    simpa [pickWeights, specWeight] using hcontra
  rw [Real.exp_eq_exp] at h1
  norm_num [mvC] at h1

/-- Claim C1 as amended: the weight vector has one entry per move of the
whole input list (not just the candidates), every weight is strictly
positive — so every index can be drawn — and every move passing the
in-loop acceptance test is a possible return value of `pick_move` for some
random-generator state. -/
theorem C1_amended_weights_and_support (moves : List AnalysisResponseMoveInfo)
    (best : AnalysisResponseMoveInfo) (h : bestMove moves = some best)
    (hb : best.mov ≠ "pass") :
    (pickWeights moves).length = moves.length ∧
      (∀ w ∈ pickWeights moves, 0 < w) ∧
      (∀ j, (hj : j < moves.length) →
        acceptMove best (moves.get ⟨j, hj⟩) = true →
        ∃ rng : Nat → Nat, pick_move rng moves = some (moves.get ⟨j, hj⟩)) := by
  refine ⟨List.length_map _ _, ?_, ?_⟩
  · intro w hw
    simp only [pickWeights, List.mem_map] at hw
    obtain ⟨m, _, hm⟩ := hw
    rw [← hm]
    exact Real.exp_pos _
  · intro j hj ha
    refine ⟨fun _ => j, ?_⟩
    have h10 : List.range 10 = 0 :: [1, 2, 3, 4, 5, 6, 7, 8, 9] := by decide
    have hg : moves.get? ((fun _ : Nat => j) 0 % moves.length) =
        some (moves.get ⟨j, hj⟩) := by
      simp only [Nat.mod_eq_of_lt hj]
      exact List.get?_eq_get hj
    calc pick_move (fun _ => j) moves
        = some (pickLoop (fun _ => j) moves best (List.range 10)) := by
          simp [pick_move, h, hb]
      _ = some (moves.get ⟨j, hj⟩) := by
          rw [h10]
          exact congrArg some (pickLoop_head_accept hg ha)

/-- Witness for the amended C1 at the one-element list `[mvC]`. -/
theorem C1_amended_weights_and_support_witness :
    (pickWeights [mvC]).length = [mvC].length ∧
      (∀ w ∈ pickWeights [mvC], 0 < w) ∧
      (∀ j, (hj : j < [mvC].length) →
        acceptMove mvC ([mvC].get ⟨j, hj⟩) = true →
        ∃ rng : Nat → Nat, pick_move rng [mvC] = some ([mvC].get ⟨j, hj⟩)) :=
  C1_amended_weights_and_support [mvC] mvC rfl (by decide)

/-- The game loop `run_game` of `katago.rs`, parameterized by the engine
(`analyze`, which can fail when the engine dies: `Option`), a per-iteration
random source, and a fuel bound on the number of loop iterations (the Rust
loop has no bound; `none` is returned on fuel exhaustion or any engine /
policy failure). -/
def run_game (engine : List (String × String) → Option AnalysisResponse)
    (rng : Nat → Nat → Nat) :
    Nat → List (String × String) → Option (List (String × String))
  | 0, _ => none
  | fuel + 1, stones =>
    match engine stones with
    | none => none
    | some resp =>
      match pick_move (rng fuel) resp.move_infos with
      | none => none
      | some mv =>
        if mv.mov = "pass" then some stones
        else run_game engine rng fuel
          (stones ++ [(resp.root_info.current_player, mv.mov)])

/-- Claim C6: each `run_game` iteration submits the current history to the
engine and applies the selection policy; a selected "pass" terminates with
the history unchanged, otherwise the pair (current player as reported by
the engine, selected move) is appended and the loop continues. -/
theorem C6_run_game_step (engine : List (String × String) → Option AnalysisResponse)
    (rng : Nat → Nat → Nat) (fuel : Nat) (stones : List (String × String))
    (resp : AnalysisResponse) (mv : AnalysisResponseMoveInfo)
    (he : engine stones = some resp)
    (hm : pick_move (rng fuel) resp.move_infos = some mv) :
    (mv.mov = "pass" → run_game engine rng (fuel + 1) stones = some stones) ∧
      (mv.mov ≠ "pass" → run_game engine rng (fuel + 1) stones =
        run_game engine rng fuel
          (stones ++ [(resp.root_info.current_player, mv.mov)])) := by
  constructor <;> intro hp <;> simp [run_game, he, hm, hp]

/-- Stub engine of the spec's end-to-end scenario: always replies with the
single evaluation `{move: "pass", utility: 0, scoreLead: 0}`. -/
def stubEngine : List (String × String) → Option AnalysisResponse :=
  fun _ => some ⟨"1", ⟨"B"⟩, [⟨"pass", 0, 0⟩]⟩

/-- Witness for C6: with the stub engine, a game started from the empty
history finishes within a single engine call and returns the empty
history. -/
theorem C6_run_game_step_witness :
    run_game stubEngine (fun _ _ => 0) 1 [] = some ([] : List (String × String)) :=
  (C6_run_game_step stubEngine (fun _ _ => 0) 0 [] ⟨"1", ⟨"B"⟩, [⟨"pass", 0, 0⟩]⟩
    ⟨"pass", 0, 0⟩ rfl rfl).1 rfl

/-- Pool sizes observed while the drain loop of `main` runs
(`while !futures.is_empty() { ... futures.next().await ... }`), starting
from pool size `s`: the size after each completed await. -/
def drainSizes : Nat → List Nat
  | 0 => []
  | s + 1 => s :: drainSizes s

/-- Pool sizes observed during the start-up loop of `main`
(`for _ in 0..playouts`): each iteration pushes one game task (size
`s + 1`); if the pool has then reached `cap = config.num_analysis_threads`,
one task is awaited before the next push (size back to `s`).  After the
loop, the remaining tasks are drained. -/
def schedSizes (cap : Nat) : Nat → Nat → List Nat
  | 0, s => drainSizes s
  | n + 1, s =>
    if s + 1 = cap then (s + 1) :: s :: schedSizes cap n s
    else (s + 1) :: schedSizes cap n (s + 1)

theorem drainSizes_lt (s : Nat) : ∀ x ∈ drainSizes s, x < s := by
  induction s with
  | zero => intro x hx; simp [drainSizes] at hx
  | succ s ih =>
    intro x hx
    simp only [drainSizes, List.mem_cons] at hx
    rcases hx with rfl | hx
    · omega
    · exact Nat.lt_succ_of_lt (ih x hx)

theorem schedSizes_le (cap : Nat) :
    ∀ n s, s < cap → ∀ x ∈ schedSizes cap n s, x ≤ cap := by
  intro n
  induction n with
  | zero =>
    intro s hs x hx
    simp only [schedSizes] at hx
    have := drainSizes_lt s x hx
    omega
  | succ n ih =>
    intro s hs x hx
    simp only [schedSizes] at hx
    by_cases hc : s + 1 = cap
    · rw [if_pos hc] at hx
      simp only [List.mem_cons] at hx
      rcases hx with rfl | rfl | hx
      · omega
      · omega
      · exact ih s hs x hx
    · rw [if_neg hc] at hx
      simp only [List.mem_cons] at hx
      rcases hx with rfl | hx
      · omega
      · exact ih (s + 1) (by omega) x hx

/-- Claim C7: for every configured cap ≥ 1 and every number of requested
games, no observed pool size of the scheduler loop in `main` ever exceeds
the cap (a new task is pushed only from a pool strictly below the cap, and
on reaching the cap one task is awaited before the next push). -/
theorem C7_pool_bounded (cap playouts : Nat) (h : 1 ≤ cap) :
    ∀ x ∈ schedSizes cap playouts 0, x ≤ cap :=
  schedSizes_le cap playouts 0 (by omega)

/-- Witness for C7 at cap 2 and 3 requested games. -/
theorem C7_pool_bounded_witness :
    1 ≤ 2 ∧ ∀ x ∈ schedSizes 2 3 0, x ≤ 2 :=
  ⟨by decide, C7_pool_bounded 2 3 (by decide)⟩

/-- Outcome delivered to a caller of `analyze`: either the matched response
or the error produced when the oneshot sender is dropped
(`rx.await.map_err(...)`). -/
inductive EngineResult where
  | ok (resp : AnalysisResponse)
  | err (msg : String)
deriving DecidableEq

/-- The error message `analyze` produces when the reader task drops a
pending sender without completing it. -/
def engineUnavailableMsg : String := "KataGo process ended before sending a response"

/-- The shutdown path of `spawn_reader` once `lines.next_line()` reports the
stream closed: `pending.drain()` drops every remaining oneshot sender, which
makes the matching `rx.await` in `analyze` resolve with an error, mapped to
`engineUnavailableMsg`.  Input: the request ids still registered in the
correlation table; output: the delivery made to each waiting caller. -/
def onStreamClose (pending : List String) : List (String × EngineResult) :=
  pending.map (fun id => (id, EngineResult.err engineUnavailableMsg))

theorem count_map_pair {α : Type} [DecidableEq α] (r : EngineResult)
    (l : List α) (a : α) :
    (l.map (fun x => (x, r))).count (a, r) = l.count a := by
  induction l with
  | nil => rfl
  | cons x xs ih =>
    simp only [List.map_cons, List.count_cons, ih]
    by_cases hx : x = a
    · simp [hx]
    · simp [hx]

/-- Claim C3: when the engine's output stream closes while the requests in
`pending` are outstanding (ids pairwise distinct, which `HashMap` keys are
by construction), every one of those callers is delivered the
engine-unavailable failure exactly once, every delivery carries that exact
failure, and nobody is left waiting (one delivery per pending entry). -/
theorem C3_stream_close_fails_all (pending : List String) (hnd : pending.Nodup) :
    (onStreamClose pending).length = pending.length ∧
      (∀ id ∈ pending,
        (onStreamClose pending).count (id, EngineResult.err engineUnavailableMsg) = 1) ∧
      (∀ d ∈ onStreamClose pending, d.2 = EngineResult.err engineUnavailableMsg) := by
  refine ⟨List.length_map _ _, ?_, ?_⟩
  · intro id hid
    rw [onStreamClose, count_map_pair]
    exact List.count_eq_one_of_mem hnd hid
  · intro d hd
    simp only [onStreamClose, List.mem_map] at hd
    obtain ⟨x, _, hx⟩ := hd
    rw [← hx]

/-- Witness for C3 with two outstanding requests "1" and "2". -/
theorem C3_stream_close_fails_all_witness :
    (onStreamClose ["1", "2"]).length = (["1", "2"] : List String).length ∧
      (∀ id ∈ (["1", "2"] : List String),
        (onStreamClose ["1", "2"]).count (id, EngineResult.err engineUnavailableMsg) = 1) ∧
      (∀ d ∈ onStreamClose ["1", "2"], d.2 = EngineResult.err engineUnavailableMsg) :=
  C3_stream_close_fails_all ["1", "2"] (by decide)

/-- State of the `next_id: AtomicU32` counter (initialized to 1 by
`KataGo::new`) after `k` completed `fetch_add(1, SeqCst)` operations.
`fetch_add` is atomic, so any concurrent execution linearizes to a sequence
of these steps; the id returned by the k-th `analyze` call (0-indexed) in
that linear order is the state before its step, i.e. `nextIdState k`.
`AtomicU32` arithmetic wraps modulo `2^32`. -/
def nextIdState : Nat → Nat
  | 0 => 1
  | k + 1 => (nextIdState k + 1) % 2 ^ 32

/-- The request id allocated by the k-th `analyze` call (0-indexed) in the
linearization order of the `fetch_add` operations. -/
def idOfCall (k : Nat) : Nat := nextIdState k

theorem idOfCall_closed (k : Nat) : idOfCall k = (1 + k) % 2 ^ 32 := by
  induction k with
  | zero => rfl
  | succ k ih =>
    show (nextIdState k + 1) % 2 ^ 32 = (1 + (k + 1)) % 2 ^ 32
    rw [show nextIdState k = idOfCall k from rfl, ih]
    have h : (2 : Nat) ^ 32 = 4294967296 := by norm_num
    rw [h]
    omega

/-- Claim C4, counterexample: the 32-bit counter wraps, so the id of the
first call is reissued to the call number `2^32`; identifiers are not
unique over an unbounded process lifetime. -/
theorem C4_counterexample :
    idOfCall 0 = 1 ∧ idOfCall (2 ^ 32) = 1 ∧ (0 : Nat) ≠ 2 ^ 32 := by
  have h : (2 : Nat) ^ 32 = 4294967296 := by norm_num
  refine ⟨rfl, ?_, by omega⟩
  rw [idOfCall_closed, h]

/-- Claim C4 as amended: request identifiers are pairwise distinct among the
first `2^32` `analyze` calls of a process lifetime (and strictly increasing
until the counter wraps); only beyond `2^32` allocations does the 32-bit
counter reuse ids. -/
theorem C4_amended_ids_distinct (i j : Nat) (hij : i < j) (hj : j < 2 ^ 32) :
    idOfCall i ≠ idOfCall j ∧ (j + 1 < 2 ^ 32 → idOfCall i < idOfCall j) := by
  rw [idOfCall_closed, idOfCall_closed]
  have h : (2 : Nat) ^ 32 = 4294967296 := by norm_num
  rw [h] at hj ⊢
  omega

/-- Witness for the amended C4 at calls 0 and 1. -/
theorem C4_amended_ids_distinct_witness :
    idOfCall 0 ≠ idOfCall 1 ∧ (1 + 1 < 2 ^ 32 → idOfCall 0 < idOfCall 1) :=
  C4_amended_ids_distinct 0 1 (by omega) (by norm_num)

/-- Character class `\w` of the key-value regex in `parse_config`
(ASCII word characters; all configuration inputs considered are ASCII). -/
def isWordChar (c : Char) : Bool := c.isAlphanum || c == '_'

/-- Character class `\s` of the key-value regex. -/
def isSpaceChar (c : Char) : Bool := c.isWhitespace

/-- Splitting of the file content into lines (Rust `str::lines`).  A
trailing newline yields one extra empty segment here, which can never match
the key-value pattern, so the parse result is unaffected. -/
def splitLines : List Char → List (List Char)
  | [] => [[]]
  | c :: cs =>
    if c = '\n' then [] :: splitLines cs
    else
      match splitLines cs with
      | [] => [[c]]
      | l :: ls => (c :: l) :: ls

/-- Matching of one line against the `parse_config` regex
`^(\w+)\s*=\s*(\w+)\s*(?:#.*)?$`, returning the two capture groups.  The
word and space classes are disjoint and disjoint from `=` and `#`, so the
greedy left-to-right scan below is exactly the regex's match. -/
def parseLine (cs : List Char) : Option (String × String) :=
  let w1 := cs.takeWhile isWordChar
  if w1.isEmpty then none
  else
    match (cs.dropWhile isWordChar).dropWhile isSpaceChar with
    | '=' :: r3 =>
      let r4 := r3.dropWhile isSpaceChar
      let w2 := r4.takeWhile isWordChar
      if w2.isEmpty then none
      else
        match (r4.dropWhile isWordChar).dropWhile isSpaceChar with
        | [] => some (w1.asString, w2.asString)
        | '#' :: _ => some (w1.asString, w2.asString)
        | _ => none
    | _ => none

/-- Lookup in the `HashMap` built by `collect()`: a later duplicate key
overwrites an earlier one, so the last matching entry wins. -/
def lookupLast (entries : List (String × String)) (key : String) : Option String :=
  (entries.reverse.find? (fun e => e.1 == key)).map Prod.snd

/-- Rust `str::parse::<usize>`: optional leading `+`, then one or more
ASCII digits, rejecting overflow past the 64-bit range (error strings as
produced by `ParseIntError`). -/
def parseUsize (s : String) : Except String Nat :=
  match s.data with
  | [] => Except.error "cannot parse integer from empty string"
  | cs =>
    let ds := match cs with
      | '+' :: rest => rest
      | _ => cs
    if ds.isEmpty then Except.error "invalid digit found in string"
    else if ds.all Char.isDigit then
      let v := ds.foldl (fun acc c => acc * 10 + (c.toNat - 48)) 0
      if v < 2 ^ 64 then Except.ok v
      else Except.error "number too large to fit in target type"
    else Except.error "invalid digit found in string"

/-- The configuration read by `parse_config` (struct `Config`). -/
structure Config where
  num_analysis_threads : Nat
deriving DecidableEq

deriving instance DecidableEq for Except

/-- The `parse_config` function of `katago.rs`: collect all
`key = value  # comment` lines, require the `numAnalysisThreads` key, and
parse its value as a `usize`. -/
def parse_config (content : String) : Except String Config :=
  let entries := (splitLines content.data).filterMap parseLine
  match lookupLast entries "numAnalysisThreads" with
  | none => Except.error "numAnalysisThreads is required"
  | some v => (parseUsize v).map (fun n => { num_analysis_threads := n })

/-- Claim C8, counterexample: the claim says a non-positive value is
rejected, but `"0".parse::<usize>()` succeeds, so `parse_config` accepts a
zero thread count without error. -/
theorem C8_counterexample :
    parse_config "numAnalysisThreads = 0" = Except.ok { num_analysis_threads := 0 } := by
  decide

/-- Claim C8 as amended: the commented `= 4` input yields cap 4, a missing
key is an error, a non-numeric value is an error, an unrecognized line is
ignored (the key found on another line still wins), and a zero value is
accepted as cap 0 (only negative or non-numeric values fail, negative ones
because `\w+` cannot match them, leaving the required key absent). -/
theorem C8_amended_parse_config :
    parse_config "numAnalysisThreads = 4  # four workers" =
        Except.ok { num_analysis_threads := 4 } ∧
      parse_config "foo = bar" = Except.error "numAnalysisThreads is required" ∧
      parse_config "foo = bar\nnumAnalysisThreads = 4" =
        Except.ok { num_analysis_threads := 4 } ∧
      parse_config "numAnalysisThreads = abc" =
        Except.error "invalid digit found in string" ∧
      parse_config "numAnalysisThreads = -1" =
        Except.error "numAnalysisThreads is required" ∧
      parse_config "numAnalysisThreads = 0" = Except.ok { num_analysis_threads := 0 } := by
  decide

/-- A Go move as in `sgf_parse::go::Move`: pass or a board point (x, y),
coordinates modelled as naturals (Rust `u8`). -/
inductive Move where
  | pass
  | move (x : Nat) (y : Nat)
deriving DecidableEq

/-- The column-letter table of `sgf.rs`:
`"ABCDEFGHJKLMNOPQRST"` (19 letters, skipping I). -/
def rankLetters : List Char :=
  ['A', 'B', 'C', 'D', 'E', 'F', 'G', 'H', 'J', 'K', 'L', 'M', 'N', 'O', 'P', 'Q', 'R', 'S', 'T']

/-- ASCII decimal digit for `n < 10`. -/
def digitChar (n : Nat) : Char := Char.ofNat (48 + n)

/-- Decimal digits of `n` (most significant first), fuel-bounded recursion
on `n / 10`; `fuel ≥ n` always suffices. -/
def natDigits : Nat → Nat → List Char
  | 0, _ => []
  | fuel + 1, n =>
    if n < 10 then [digitChar n]
    else natDigits fuel (n / 10) ++ [digitChar (n % 10)]

/-- Rust `u8::to_string` for the row number. -/
def natToString (n : Nat) : String := (natDigits (n + 1) n).asString

/-- The `move_to_string` function of `sgf.rs`: "pass" for a pass, otherwise
the column letter `rank[x]` followed by the decimal row `y + 1`.  An
out-of-range `x` panics in Rust (`rank[usize::from(point.x)]`), modelled as
`none`. -/
def move_to_string : Move → Option String
  | Move.pass => some "pass"
  | Move.move x y =>
    (rankLetters.get? x).map (fun c => (c :: (natToString (y + 1)).data).asString)

/-- Position of a character in a list (Rust `iter().position`). -/
def position (t : Char) : List Char → Option Nat
  | [] => none
  | c :: cs => if c = t then some 0 else (position t cs).map (· + 1)

/-- Rust `str::parse::<u8>`: optional leading `+`, then digits, value below
256. -/
def parseU8 (cs : List Char) : Option Nat :=
  let ds := match cs with
    | '+' :: rest => rest
    | _ => cs
  if ds.isEmpty then none
  else if ds.all Char.isDigit then
    let v := ds.foldl (fun acc c => acc * 10 + (c.toNat - 48)) 0
    if v < 256 then some v else none
  else none

/-- The `string_to_move` function of `sgf.rs`: "pass" decodes to a pass;
otherwise the first character is looked up in the rank table
(`position(...).unwrap()`, panic modelled as `none`) and the rest is parsed
as a `u8` row number, decremented by one (`parse::<u8>().unwrap() - 1`;
the unwrap panic on non-numbers and the `0 - 1` underflow panic are
modelled as `none`). -/
def string_to_move (s : String) : Option Move :=
  if s = "pass" then some Move.pass
  else
    match s.data with
    | [] => none
    | c :: rest =>
      match position c rankLetters with
      | none => none
      | some x =>
        match parseU8 rest with
        | none => none
        | some n => if n = 0 then none else some (Move.move x (n - 1))

/-- Claim C9: decoding the encoding of any point of the 19×19 board returns
the original point, and "pass" encodes to the string "pass", which decodes
back to the pass move. -/
theorem C9_move_string_round_trip :
    (∀ x, x < 19 → ∀ y, y < 19 →
      (move_to_string (Move.move x y)).bind string_to_move = some (Move.move x y)) ∧
      move_to_string Move.pass = some "pass" ∧
      string_to_move "pass" = some Move.pass := by
  refine ⟨by decide, rfl, by decide⟩

/-- Witness for C9 at the point (3, 5). -/
theorem C9_move_string_round_trip_witness :
    (move_to_string (Move.move 3 5)).bind string_to_move = some (Move.move 3 5) :=
  C9_move_string_round_trip.1 3 (by decide) 5 (by decide)
